import Mathlib

/-!
Shallow embedding of the node-dispatch service registry (src/routes/index.js).

JavaScript objects used as string-keyed maps are modelled as association
lists (`SMap`); object key insertion order and the distinction between an
absent key and a key mapping to an empty array are both preserved, since
several routes depend on `_.has` checks.  Millisecond timestamps
(`Date.now()`) are modelled as `Int`; the float divisions by `1000.0` in
`updateServices` are modelled exactly in `ℚ` (all dividends are integers,
and the comparison points relevant to reaping are exact in float64 as
well).
-/

set_option maxHeartbeats 1000000

/-- A JavaScript object used as a map from string keys to values,
in insertion order. -/
abbrev SMap (α : Type) : Type := List (String × α)

/-- Key lookup: the value at the first matching key, `none` when absent. -/
def sGet? {α : Type} : SMap α → String → Option α
  | [], _ => none
  | (k', v) :: rest, k => if k' = k then some v else sGet? rest k

/-- `_.has(obj, key)`. -/
def sHas {α : Type} : SMap α → String → Bool
  | [], _ => false
  | (k', _) :: rest, k => k' = k || sHas rest k

/-- Lookup with a default value. -/
def sGetD {α : Type} (m : SMap α) (k : String) (d : α) : α :=
  (sGet? m k).getD d

/-- `obj[key] = v`: replace the value at an existing key in place, or append
a fresh key at the end (JavaScript object key-order semantics). -/
def sSet {α : Type} : SMap α → String → α → SMap α
  | [], k, v => [(k, v)]
  | (k', v') :: rest, k, v =>
      if k' = k then (k, v) :: rest else (k', v') :: sSet rest k v

/-- `delete obj[key]`. -/
def sDel {α : Type} : SMap α → String → SMap α
  | [], _ => []
  | (k', v') :: rest, k =>
      if k' = k then sDel rest k else (k', v') :: sDel rest k

/-- `_.values(obj)`. -/
def sVals {α : Type} (m : SMap α) : List α := m.map (·.2)

/-- `_.each(obj, f)` where `f` rewrites every value in place. -/
def sMapVals {α : Type} (m : SMap α) (f : α → α) : SMap α :=
  m.map (fun p => (p.1, f p.2))

/-- The keys of the map, in order. -/
def sKeys {α : Type} (m : SMap α) : List String := m.map (·.1)

/-- The keys of the map are pairwise distinct (holds for every map built
from `{}` through `sSet`/`sDel`, mirroring real object semantics). -/
def KeysNodup {α : Type} (m : SMap α) : Prop := (sKeys m).Nodup

/-- `_.without(list, u)`: drop every occurrence of `u`. -/
def without : List String → String → List String
  | [], _ => []
  | x :: rest, u => if x = u then without rest u else x :: without rest u

/-- `if (!_.has(m, k)) m[k] = []; m[k].push(x)` — the index-insertion idiom
of the register route. -/
def pushIdx (m : SMap (List String)) (k : String) (x : String) :
    SMap (List String) :=
  sSet m k (sGetD m k [] ++ [x])

/-- `m[k] = _.without(m[k], x)` — the index-removal idiom of `reapService`.
When the key is absent, `_.without(undefined, x)` yields `[]` and the
assignment creates the key. -/
def removeIdx (m : SMap (List String)) (k : String) (x : String) :
    SMap (List String) :=
  sSet m k (without (sGetD m k []) x)

/-- One registered service's configuration blob (`UUID_TO_CONFIG` value),
with the fields the register route installs. -/
structure Config where
  service : String
  endpoint : String
  tags : List String
  created : Int
  lastHeartbeat : Int
  age : ℚ
  heartbeat : ℚ
  ttl : Int
  uuid : String
  deriving Repr, DecidableEq

/-- The three registry globals of src/routes/index.js. -/
structure RegistryState where
  SERVICE_TO_UUID : SMap (List String)
  TAG_TO_UUID : SMap (List String)
  UUID_TO_CONFIG : SMap Config
  deriving Repr, DecidableEq

/-- The three listener globals of src/routes/index.js. -/
structure ListenerState where
  LISTENERS_BY_TAG : SMap (List String)
  LISTENERS_BY_NAME : SMap (List String)
  LISTENERS_ALL : List String
  deriving Repr, DecidableEq

/-- The initial (empty-object) registry globals. -/
def emptyRegistry : RegistryState :=
  { SERVICE_TO_UUID := [], TAG_TO_UUID := [], UUID_TO_CONFIG := [] }

/-- `DEFAULT_SERVICE_TTL = 60`. -/
def DEFAULT_SERVICE_TTL : Int := 60

/-- The `tags` field of a register request body: either a JSON array of
strings, or anything else (absent, string, number, object, …) on which
`configBlob.tags.join(",")` throws a TypeError. -/
inductive TagsField where
  | arr (tags : List String)
  | nonArray
  deriving Repr, DecidableEq

/-- A register request body.  `ttl` is the result of `parseInt(body.ttl)`:
`some n` when it parses to the integer `n`, `none` when it is `NaN`
(field absent or unparsable). -/
structure RegisterBody where
  service : String
  endpoint : String
  tags : TagsField
  ttl : Option Int
  deriving Repr, DecidableEq

/-- `parseInt(configBlob.ttl) || DEFAULT_SERVICE_TTL`: the falsy results of
`parseInt` are `NaN` (modelled `none`) and `0`; every other integer —
including a negative one — is kept as supplied. -/
def parseTtl : Option Int → Int
  | none => DEFAULT_SERVICE_TTL
  | some n => if n = 0 then DEFAULT_SERVICE_TTL else n

/-- `str.endsWith("/")`. -/
def endsWithSlash (s : String) : Bool := s.data.getLast? = some '/'

/-- The webhook normalization step: append `"/"` unless already present. -/
def normalizeWebhook (listener : String) : String :=
  if endsWithSlash listener then listener else listener ++ "/"

/-- `notifyForService(LISTENER_GROUP, serviceId, finish)`: the list of
delivery-attempt URIs.  NOTE (faithful to the source): the function takes
`LISTENER_GROUP` but its body tests and reads the global
`LISTENERS_BY_NAME` instead, so the group argument is ignored. -/
def notifyForService (LISTENER_GROUP : SMap (List String))
    (LISTENERS_BY_NAME : SMap (List String)) (serviceId : String) :
    List String :=
  if sHas LISTENERS_BY_NAME serviceId then
    (sGetD LISTENERS_BY_NAME serviceId []).map
      (fun listener => normalizeWebhook listener ++ serviceId)
  else
    []

/-- `notifyForAll(finish)`: one delivery `base + "all"` per all-listener. -/
def notifyForAll (ls : ListenerState) : List String :=
  ls.LISTENERS_ALL.map (fun listener => normalizeWebhook listener ++ "all")

/-- `notifyByObject(serviceObject, next)`: name deliveries, then one batch
per tag, then the all deliveries. -/
def notifyByObject (ls : ListenerState) (serviceObject : Config) :
    List String :=
  notifyForService ls.LISTENERS_BY_NAME ls.LISTENERS_BY_NAME
      serviceObject.service
    ++ serviceObject.tags.flatMap
        (fun tag => notifyForService ls.LISTENERS_BY_TAG ls.LISTENERS_BY_NAME
          tag)
    ++ notifyForAll ls

/-- `router.put("/register")`.  Returns the new registry state together
with `some (uuid, deliveries)` on success.  When `body.tags` is not an
array, `configBlob.tags.join(",")` throws before any of the three
registry globals is touched (the preceding lines only set fields on the
request-local `configBlob`), so the result is `(st, none)`. -/
def registerService (st : RegistryState) (ls : ListenerState)
    (body : RegisterBody) (serviceUUID : String) (now : Int) :
    RegistryState × Option (String × List String) :=
  match body.tags with
  | TagsField.nonArray => (st, none)
  | TagsField.arr tags =>
    let configBlob : Config :=
      { service := body.service, endpoint := body.endpoint, tags := tags,
        created := now, lastHeartbeat := now, age := 0, heartbeat := 0,
        ttl := parseTtl body.ttl, uuid := serviceUUID }
    let newById := sSet st.UUID_TO_CONFIG serviceUUID configBlob
    let newByName := pushIdx st.SERVICE_TO_UUID body.service serviceUUID
    let newByTag :=
      tags.foldl (fun m tag => pushIdx m tag serviceUUID) st.TAG_TO_UUID
    let st3 : RegistryState :=
      { SERVICE_TO_UUID := newByName, TAG_TO_UUID := newByTag,
        UUID_TO_CONFIG := newById }
    (st3, some (serviceUUID, notifyByObject ls configBlob))

/-- `reapService(serviceUUID)`: unlink the name and tag mappings, delete
the config, and return the removed blob; `{}` (here `none`) when the
uuid is unknown. -/
def reapService (st : RegistryState) (serviceUUID : String) :
    RegistryState × Option Config :=
  match sGet? st.UUID_TO_CONFIG serviceUUID with
  | none => (st, none)
  | some configBlob =>
    let newByName :=
      removeIdx st.SERVICE_TO_UUID configBlob.service serviceUUID
    let newByTag := configBlob.tags.foldl
      (fun m tag => removeIdx m tag serviceUUID) st.TAG_TO_UUID
    let newById := sDel st.UUID_TO_CONFIG serviceUUID
    let st3 : RegistryState :=
      { SERVICE_TO_UUID := newByName, TAG_TO_UUID := newByTag,
        UUID_TO_CONFIG := newById }
    (st3, some configBlob)

/-- `router.delete(/service/uuid/...)`: on a known uuid, remove through
`reapService` and notify; on an unknown uuid answer the NotFound error
json (`none`) and mutate nothing. -/
def deleteService (st : RegistryState) (ls : ListenerState)
    (serviceUUID : String) : RegistryState × Option (List String) :=
  if sHas st.UUID_TO_CONFIG serviceUUID then
    let r := reapService st serviceUUID
    (r.1, some (match r.2 with
      | some configBlob => notifyByObject ls configBlob
      | none => []))
  else
    (st, none)

/-- `router.patch(/service/uuid/.../heartbeat)`: set `lastHeartbeat = now`
on the one record, touch nothing else, send no notification (the
delivery list is `[]` because the handler calls no notifier); `false`
is the NotFound error json. -/
def heartbeatService (st : RegistryState) (serviceUUID : String)
    (now : Int) : RegistryState × Bool × List String :=
  match sGet? st.UUID_TO_CONFIG serviceUUID with
  | none => (st, false, [])
  | some cfg =>
    let newCfg : Config := { cfg with lastHeartbeat := now }
    let newById := sSet st.UUID_TO_CONFIG serviceUUID newCfg
    ({ st with UUID_TO_CONFIG := newById }, true, [])

/-- The per-record body of `updateServices`: recompute the stored
`heartbeat` and `age` fields from the clock. -/
def refreshConfig (now : Int) (config : Config) : Config :=
  { config with
      heartbeat := ((now : ℚ) - (config.lastHeartbeat : ℚ)) / 1000,
      age := ((now : ℚ) - (config.created : ℚ)) / 1000 }

/-- `updateServices()`: rewrite every stored `heartbeat` and `age` field
from the current clock. -/
def updateServices (st : RegistryState) (now : Int) : RegistryState :=
  { st with UUID_TO_CONFIG := sMapVals st.UUID_TO_CONFIG (refreshConfig now) }

/-- The reap selection of `reapServices`: the uuids of the stored configs
whose stored `heartbeat` field strictly exceeds their `ttl`. -/
def reapSelection (st : RegistryState) : List String :=
  ((sVals st.UUID_TO_CONFIG).filter
      (fun serviceObject =>
        decide ((serviceObject.ttl : ℚ) < serviceObject.heartbeat))).map
    (·.uuid)

/-- One step of the reap sweep: reap the uuid and collect the removed
blob for the notification pass. -/
def reapStep (acc : RegistryState × List Config) (reapUUID : String) :
    RegistryState × List Config :=
  let r := reapService acc.1 reapUUID
  (r.1, acc.2 ++ r.2.toList)

/-- `reapServices(next)`: select once, reap each selected uuid through
`reapService`, then notify per removed blob.  Returns the final state and
the delivery batches. -/
def reapServices (st : RegistryState) (ls : ListenerState) :
    RegistryState × List (List String) :=
  let reapUUIDs := reapSelection st
  let res := reapUUIDs.foldl reapStep (st, [])
  (res.1, res.2.map (fun serviceObject => notifyByObject ls serviceObject))

/-- `updateAndReap()`: one reaper tick — refresh the derived fields, then
sweep. -/
def updateAndReap (st : RegistryState) (ls : ListenerState) (now : Int) :
    RegistryState × List (List String) :=
  reapServices (updateServices st now) ls

/-- The only response the uuid-lookup route can produce. -/
inductive UuidLookupResult where
  | noSuchService
  deriving Repr, DecidableEq

/-- `router.get(/service/uuid/...)`: on an unknown uuid the handler
answers the error json; on a known uuid it binds `serviceObject` and then
falls through without calling `res.json` at all, so no response is
produced (`none`). -/
def getServiceByUuid (st : RegistryState) (serviceUUID : String) :
    Option UuidLookupResult :=
  match sGet? st.UUID_TO_CONFIG serviceUUID with
  | some _ => none
  | none => some UuidLookupResult.noSuchService

/-- `router.get(/service/all/)`: the handler body is completely empty, so
no response is ever produced. -/
def getServiceAll (_st : RegistryState) : Option Unit := none

/-! ### Association-map lemmas -/

theorem sHas_eq_isSome {α : Type} (m : SMap α) (k : String) :
    sHas m k = (sGet? m k).isSome := by
  induction m with
  | nil => rfl
  | cons p rest ih =>
    cases p with
    | mk k' v =>
      by_cases h : k' = k
      · simp [sHas, sGet?, h]
      · simp [sHas, sGet?, h, ih]

theorem sGet?_eq_none_of_sHas_false {α : Type} {m : SMap α} {k : String}
    (h : sHas m k = false) : sGet? m k = none := by
  rw [sHas_eq_isSome] at h
  cases hg : sGet? m k with
  | none => rfl
  | some v => rw [hg] at h; simp at h

theorem sGet?_sSet_self {α : Type} (m : SMap α) (k : String) (v : α) :
    sGet? (sSet m k v) k = some v := by
  induction m with
  | nil => simp [sSet, sGet?]
  | cons p rest ih =>
    cases p with
    | mk k' v' =>
      by_cases h : k' = k
      · simp [sSet, sGet?, h]
      · simp [sSet, sGet?, h, ih]

theorem sGet?_sSet_ne {α : Type} (m : SMap α) (k k' : String) (v : α)
    (h : k' ≠ k) : sGet? (sSet m k v) k' = sGet? m k' := by
  induction m with
  | nil => simp [sSet, sGet?, Ne.symm h]
  | cons p rest ih =>
    cases p with
    | mk k0 v0 =>
      by_cases h0 : k0 = k
      · subst h0
        simp [sSet, sGet?, Ne.symm h]
      · simp [sSet, sGet?, h0, ih]

theorem sGet?_sDel_self {α : Type} (m : SMap α) (k : String) :
    sGet? (sDel m k) k = none := by
  induction m with
  | nil => rfl
  | cons p rest ih =>
    cases p with
    | mk k' v =>
      by_cases h : k' = k
      · simp [sDel, h, ih]
      · simp [sDel, sGet?, h, ih]

theorem sGet?_sDel_ne {α : Type} (m : SMap α) (k k' : String)
    (h : k' ≠ k) : sGet? (sDel m k) k' = sGet? m k' := by
  induction m with
  | nil => rfl
  | cons p rest ih =>
    cases p with
    | mk k0 v0 =>
      by_cases h0 : k0 = k
      · subst h0
        simp [sDel, sGet?, Ne.symm h, ih]
      · simp [sDel, sGet?, h0, ih]

theorem mem_of_sGet? {α : Type} {m : SMap α} {k : String} {v : α}
    (h : sGet? m k = some v) : (k, v) ∈ m := by
  induction m with
  | nil => simp [sGet?] at h
  | cons p rest ih =>
    cases p with
    | mk k' v' =>
      by_cases h0 : k' = k
      · subst h0
        simp [sGet?] at h
        subst h
        exact List.mem_cons_self _ _
      · simp [sGet?, h0] at h
        exact List.mem_cons_of_mem _ (ih h)

theorem sGet?_of_mem_nodup {α : Type} {m : SMap α} {k : String} {v : α}
    (hnd : KeysNodup m) (h : (k, v) ∈ m) : sGet? m k = some v := by
  induction m with
  | nil => simp at h
  | cons p rest ih =>
    cases p with
    | mk k' v' =>
      rcases List.mem_cons.mp h with h1 | h1
      · cases h1
        simp [sGet?]
      · have hk : k' ≠ k := by
          intro he
          subst he
          have : k' ∈ sKeys rest :=
            List.mem_map.mpr ⟨(k', v), h1, rfl⟩
          exact (List.nodup_cons.mp hnd).1 this
        have hnd' : KeysNodup rest := (List.nodup_cons.mp hnd).2
        simp [sGet?, hk, ih hnd' h1]

theorem mem_sSet_weak {α : Type} {m : SMap α} {k : String} {v : α}
    {p : String × α} (h : p ∈ sSet m k v) : p = (k, v) ∨ p ∈ m := by
  induction m with
  | nil => simp [sSet] at h; left; exact h
  | cons q rest ih =>
    cases q with
    | mk k' v' =>
      by_cases h0 : k' = k
      · simp [sSet, h0] at h
        rcases h with h | h
        · left; exact h
        · right; exact List.mem_cons_of_mem _ h
      · simp [sSet, h0] at h
        rcases h with h | h
        · right; exact List.mem_cons.mpr (Or.inl h)
        · rcases ih h with h1 | h1
          · left; exact h1
          · right; exact List.mem_cons_of_mem _ h1

theorem mem_sSet_nodup {α : Type} {m : SMap α} {k : String} {v : α}
    {p : String × α} (hnd : KeysNodup m) (h : p ∈ sSet m k v) :
    p = (k, v) ∨ (p ∈ m ∧ p.1 ≠ k) := by
  induction m with
  | nil => simp [sSet] at h; left; exact h
  | cons q rest ih =>
    cases q with
    | mk k' v' =>
      have hnd' : KeysNodup rest := (List.nodup_cons.mp hnd).2
      by_cases h0 : k' = k
      · subst h0
        simp [sSet] at h
        rcases h with h | h
        · left; exact h
        · right
          constructor
          · exact List.mem_cons_of_mem _ h
          · intro he
            have : p.1 ∈ sKeys rest :=
              List.mem_map.mpr ⟨p, h, rfl⟩
            rw [he] at this
            exact (List.nodup_cons.mp hnd).1 this
      · simp [sSet, h0] at h
        rcases h with h | h
        · right
          refine ⟨List.mem_cons.mpr (Or.inl h), ?_⟩
          rw [h]
          exact h0
        · rcases ih hnd' h with h1 | h1
          · left; exact h1
          · right; exact ⟨List.mem_cons_of_mem _ h1.1, h1.2⟩

theorem mem_sDel {α : Type} {m : SMap α} {k : String}
    {p : String × α} (h : p ∈ sDel m k) : p ∈ m ∧ p.1 ≠ k := by
  induction m with
  | nil => simp [sDel] at h
  | cons q rest ih =>
    cases q with
    | mk k' v' =>
      by_cases h0 : k' = k
      · simp [sDel, h0] at h
        exact ⟨List.mem_cons_of_mem _ (ih h).1, (ih h).2⟩
      · simp [sDel, h0] at h
        rcases h with h | h
        · refine ⟨List.mem_cons.mpr (Or.inl h), ?_⟩
          rw [h]; exact h0
        · exact ⟨List.mem_cons_of_mem _ (ih h).1, (ih h).2⟩

theorem sKeys_sSet {α : Type} (m : SMap α) (k : String) (v : α) :
    sKeys (sSet m k v) = if sHas m k then sKeys m else sKeys m ++ [k] := by
  induction m with
  | nil => simp [sSet, sHas, sKeys]
  | cons p rest ih =>
    cases p with
    | mk k0 v0 =>
      by_cases h0 : k0 = k
      · simp [sSet, sHas, sKeys, h0]
      · by_cases h1 : sHas rest k
        · simp [sSet, sHas, sKeys, h0, h1] at ih ⊢
          exact ih
        · simp [sSet, sHas, sKeys, h0, h1] at ih ⊢
          exact ih

theorem keysNodup_sSet {α : Type} {m : SMap α} (k : String) (v : α)
    (hnd : KeysNodup m) : KeysNodup (sSet m k v) := by
  unfold KeysNodup
  rw [sKeys_sSet]
  by_cases h : sHas m k
  · simpa [h] using hnd
  · have hk : k ∉ sKeys m := by
      intro hmem
      rcases List.mem_map.mp hmem with ⟨p, hp, hpk⟩
      obtain ⟨k1, v1⟩ := p
      simp at hpk
      subst hpk
      have hg : sGet? m k1 = some v1 := sGet?_of_mem_nodup hnd hp
      rw [sHas_eq_isSome, hg] at h
      simp at h
    simp [h]
    exact List.Nodup.append hnd (List.nodup_singleton k)
      (by simpa using hk)

theorem keysNodup_sDel {α : Type} {m : SMap α} (k : String)
    (hnd : KeysNodup m) : KeysNodup (sDel m k) := by
  induction m with
  | nil => exact hnd
  | cons p rest ih =>
    cases p with
    | mk k0 v0 =>
      have h1 := (List.nodup_cons.mp hnd).1
      have h2 := (List.nodup_cons.mp hnd).2
      by_cases h0 : k0 = k
      · simpa [sDel, h0] using ih h2
      · simp only [sDel, if_neg h0]
        unfold KeysNodup sKeys
        rw [List.map_cons, List.nodup_cons]
        refine ⟨?_, ih h2⟩
        intro hmem
        rcases List.mem_map.mp hmem with ⟨q, hq, hqk⟩
        exact h1 (List.mem_map.mpr ⟨q, (mem_sDel hq).1, hqk⟩)

theorem mem_without {l : List String} {u w : String} :
    w ∈ without l u ↔ w ∈ l ∧ w ≠ u := by
  induction l with
  | nil => simp [without]
  | cons x rest ih =>
    by_cases h : x = u
    · subst h
      rw [without, if_pos rfl, ih]
      constructor
      · rintro ⟨h1, h2⟩
        exact ⟨List.mem_cons_of_mem _ h1, h2⟩
      · rintro ⟨h1, h2⟩
        rcases List.mem_cons.mp h1 with h3 | h3
        · exact absurd h3 h2
        · exact ⟨h3, h2⟩
    · rw [without, if_neg h]
      constructor
      · intro h1
        rcases List.mem_cons.mp h1 with h3 | h3
        · subst h3
          exact ⟨List.mem_cons_self _ _, h⟩
        · have h4 := ih.mp h3
          exact ⟨List.mem_cons_of_mem _ h4.1, h4.2⟩
      · rintro ⟨h1, h2⟩
        rcases List.mem_cons.mp h1 with h3 | h3
        · subst h3
          exact List.mem_cons_self _ _
        · exact List.mem_cons_of_mem _ (ih.mpr ⟨h3, h2⟩)

theorem without_without (l : List String) (u : String) :
    without (without l u) u = without l u := by
  induction l with
  | nil => rfl
  | cons x rest ih =>
    by_cases h : x = u
    · simp [without, h, ih]
    · simp [without, h, ih]

theorem sGet?_pushIdx_self (m : SMap (List String)) (k x : String) :
    sGet? (pushIdx m k x) k = some (sGetD m k [] ++ [x]) :=
  sGet?_sSet_self m k _

theorem sGet?_pushIdx_ne (m : SMap (List String)) (k k' x : String)
    (h : k' ≠ k) : sGet? (pushIdx m k x) k' = sGet? m k' :=
  sGet?_sSet_ne m k k' _ h

theorem sGet?_removeIdx_self (m : SMap (List String)) (k x : String) :
    sGet? (removeIdx m k x) k = some (without (sGetD m k []) x) :=
  sGet?_sSet_self m k _

theorem sGet?_removeIdx_ne (m : SMap (List String)) (k k' x : String)
    (h : k' ≠ k) : sGet? (removeIdx m k x) k' = sGet? m k' :=
  sGet?_sSet_ne m k k' _ h

theorem sHas_sSet_mono {α : Type} {m : SMap α} {k' : String}
    (k : String) (v : α) (h : sHas m k' = true) :
    sHas (sSet m k v) k' = true := by
  by_cases hk : k' = k
  · subst hk
    rw [sHas_eq_isSome, sGet?_sSet_self]
    rfl
  · rw [sHas_eq_isSome, sGet?_sSet_ne m k k' v hk]
    rw [sHas_eq_isSome] at h
    exact h

theorem keysNodup_foldPush (tags : List String) {m : SMap (List String)}
    (u : String) (hnd : KeysNodup m) :
    KeysNodup (tags.foldl (fun m' tag => pushIdx m' tag u) m) := by
  induction tags generalizing m with
  | nil => exact hnd
  | cons t0 rest ih => exact ih (keysNodup_sSet _ _ hnd)

theorem keysNodup_foldRemove (tags : List String) {m : SMap (List String)}
    (u : String) (hnd : KeysNodup m) :
    KeysNodup (tags.foldl (fun m' tag => removeIdx m' tag u) m) := by
  induction tags generalizing m with
  | nil => exact hnd
  | cons t0 rest ih => exact ih (keysNodup_sSet _ _ hnd)

theorem foldPush_preserve (tags : List String) (m : SMap (List String))
    (u t w : String) (h : ∃ l, sGet? m t = some l ∧ w ∈ l) :
    ∃ l', sGet? (tags.foldl (fun m' tag => pushIdx m' tag u) m) t = some l'
      ∧ w ∈ l' := by
  induction tags generalizing m with
  | nil => exact h
  | cons t0 rest ih =>
    apply ih
    rcases h with ⟨l, hl, hw⟩
    by_cases ht : t = t0
    · subst ht
      refine ⟨sGetD m t [] ++ [u], sGet?_pushIdx_self m t u, ?_⟩
      rw [sGetD, hl]
      simp [hw]
    · exact ⟨l, by rw [sGet?_pushIdx_ne m t0 t u ht]; exact hl, hw⟩

theorem foldPush_self (tags : List String) (m : SMap (List String))
    (u t : String) (h : t ∈ tags) :
    ∃ l, sGet? (tags.foldl (fun m' tag => pushIdx m' tag u) m) t = some l
      ∧ u ∈ l := by
  induction tags generalizing m with
  | nil => simp at h
  | cons t0 rest ih =>
    by_cases ht : t ∈ rest
    · exact ih (pushIdx m t0 u) ht
    · have ht0 : t = t0 := by
        rcases List.mem_cons.mp h with h1 | h1
        · exact h1
        · exact absurd h1 ht
      subst ht0
      show ∃ l, sGet? (rest.foldl (fun m' tag => pushIdx m' tag u)
        (pushIdx m t u)) t = some l ∧ u ∈ l
      apply foldPush_preserve
      exact ⟨sGetD m t [] ++ [u], sGet?_pushIdx_self m t u, by simp⟩

theorem foldPush_mem (tags : List String) (m : SMap (List String))
    (u : String) {p : String × List String}
    (hp : p ∈ tags.foldl (fun m' tag => pushIdx m' tag u) m) :
    ∀ w ∈ p.2,
      (∃ p', p' ∈ m ∧ p'.1 = p.1 ∧ w ∈ p'.2) ∨ (w = u ∧ p.1 ∈ tags) := by
  induction tags generalizing m with
  | nil =>
    intro w hw
    exact Or.inl ⟨p, hp, rfl, hw⟩
  | cons t0 rest ih =>
    intro w hw
    rcases ih (pushIdx m t0 u) hp w hw with h1 | h1
    · rcases h1 with ⟨p', hp', hk, hw'⟩
      rcases mem_sSet_weak hp' with h2 | h2
      · have hk0 : t0 = p.1 := by rw [← hk, h2]
        have hw2 : w ∈ sGetD m t0 [] ++ [u] := by rw [h2] at hw'; exact hw'
        rcases List.mem_append.mp hw2 with h3 | h3
        · cases hg : sGet? m t0 with
          | none =>
            rw [sGetD, hg] at h3
            simp at h3
          | some l =>
            refine Or.inl ⟨(t0, l), mem_of_sGet? hg, hk0, ?_⟩
            rw [sGetD, hg] at h3
            exact h3
        · simp at h3
          subst h3
          exact Or.inr ⟨rfl, by rw [← hk0]; exact List.mem_cons_self _ _⟩
      · exact Or.inl ⟨p', h2, hk, hw'⟩
    · exact Or.inr ⟨h1.1, List.mem_cons_of_mem _ h1.2⟩

theorem foldRemove_sGet? (tags : List String) (m : SMap (List String))
    (u t : String) :
    sGet? (tags.foldl (fun m' tag => removeIdx m' tag u) m) t =
      if t ∈ tags then some (without (sGetD m t []) u) else sGet? m t := by
  induction tags generalizing m with
  | nil => simp
  | cons t0 rest ih =>
    show sGet? (rest.foldl (fun m' tag => removeIdx m' tag u)
      (removeIdx m t0 u)) t = _
    rw [ih]
    by_cases h0 : t = t0
    · subst h0
      by_cases h1 : t ∈ rest
      · rw [if_pos h1, if_pos (List.mem_cons_self _ _)]
        rw [sGetD, sGet?_removeIdx_self]
        show some (without ((some (without (sGetD m t []) u)).getD []) u) = _
        rw [Option.getD_some, without_without]
      · rw [if_neg h1, if_pos (List.mem_cons_self _ _)]
        exact sGet?_removeIdx_self m t u
    · by_cases h1 : t ∈ rest
      · rw [if_pos h1, if_pos (List.mem_cons_of_mem _ h1)]
        rw [sGetD, sGet?_removeIdx_ne m t0 t u h0]
        rfl
      · rw [if_neg h1, if_neg ?_]
        · exact sGet?_removeIdx_ne m t0 t u h0
        · intro hmem
          rcases List.mem_cons.mp hmem with h2 | h2
          · exact h0 h2
          · exact h1 h2

theorem foldRemove_mem (tags : List String) {m : SMap (List String)}
    (u : String) {p : String × List String} (hnd : KeysNodup m)
    (hp : p ∈ tags.foldl (fun m' tag => removeIdx m' tag u) m) :
    ∀ w ∈ p.2,
      ∃ p', p' ∈ m ∧ p'.1 = p.1 ∧ w ∈ p'.2 ∧ (p.1 ∈ tags → w ≠ u) := by
  induction tags generalizing m with
  | nil =>
    intro w hw
    exact ⟨p, hp, rfl, hw, by simp⟩
  | cons t0 rest ih =>
    intro w hw
    have hnd1 : KeysNodup (removeIdx m t0 u) := keysNodup_sSet _ _ hnd
    rcases ih hnd1 hp w hw with ⟨p', hp', hk, hw', hcond⟩
    rcases mem_sSet_nodup hnd hp' with h2 | h2
    · have hk0 : p.1 = t0 := by rw [← hk, h2]
      have hw2 : w ∈ without (sGetD m t0 []) u := by rw [h2] at hw'; exact hw'
      have hwm := mem_without.mp hw2
      cases hg : sGet? m t0 with
      | none =>
        rw [sGetD, hg] at hwm
        simp at hwm
      | some l =>
        refine ⟨(t0, l), mem_of_sGet? hg, by rw [hk0], ?_, ?_⟩
        · rw [sGetD, hg] at hwm
          exact hwm.1
        · intro _
          exact hwm.2
    · refine ⟨p', h2.1, hk, hw', ?_⟩
      intro hmem
      rcases List.mem_cons.mp hmem with h3 | h3
      · rw [← hk] at h3
        exact absurd h3 h2.2
      · exact hcond h3

theorem foldRemove_sHas (tags : List String) {m : SMap (List String)}
    (u t : String) (h : sHas m t = true) :
    sHas (tags.foldl (fun m' tag => removeIdx m' tag u) m) t = true := by
  induction tags generalizing m with
  | nil => exact h
  | cons t0 rest ih => exact ih (sHas_sSet_mono _ _ h)

theorem sGet?_sMapVals {α : Type} (m : SMap α) (f : α → α) (k : String) :
    sGet? (sMapVals m f) k = (sGet? m k).map f := by
  induction m with
  | nil => rfl
  | cons p rest ih =>
    cases p with
    | mk k0 v0 =>
      by_cases h : k0 = k
      · simp [sMapVals, sGet?, h]
      · simp only [sMapVals, List.map_cons] at ih ⊢
        simp [sGet?, h, ih]

theorem mem_sMapVals {α : Type} {m : SMap α} {f : α → α}
    {q : String × α} (h : q ∈ sMapVals m f) :
    ∃ v, (q.1, v) ∈ m ∧ q.2 = f v := by
  rcases List.mem_map.mp h with ⟨p, hp, hq⟩
  obtain ⟨k0, v0⟩ := p
  subst hq
  exact ⟨v0, hp, rfl⟩

theorem sKeys_sMapVals {α : Type} (m : SMap α) (f : α → α) :
    sKeys (sMapVals m f) = sKeys m := by
  simp [sKeys, sMapVals]

theorem keysNodup_sMapVals {α : Type} {m : SMap α} (f : α → α)
    (hnd : KeysNodup m) : KeysNodup (sMapVals m f) := by
  unfold KeysNodup
  rw [sKeys_sMapVals]
  exact hnd

theorem mem_sVals {α : Type} {m : SMap α} {c : α} :
    c ∈ sVals m ↔ ∃ k, (k, c) ∈ m := by
  constructor
  · intro h
    rcases List.mem_map.mp h with ⟨p, hp, hc⟩
    exact ⟨p.1, by rw [← hc]; exact hp⟩
  · rintro ⟨k, hk⟩
    exact List.mem_map.mpr ⟨(k, c), hk, rfl⟩

/-! ### Registry invariants -/

/-- Every id listed under a name in `SERVICE_TO_UUID` is a key of
`UUID_TO_CONFIG` and the stored record carries that service name. -/
def NameConsistent (st : RegistryState) : Prop :=
  ∀ p ∈ st.SERVICE_TO_UUID, ∀ u ∈ p.2,
    ∃ c, sGet? st.UUID_TO_CONFIG u = some c ∧ c.service = p.1

/-- Every id listed under a tag in `TAG_TO_UUID` is a key of
`UUID_TO_CONFIG` and the stored record carries that tag. -/
def TagConsistent (st : RegistryState) : Prop :=
  ∀ p ∈ st.TAG_TO_UUID, ∀ u ∈ p.2,
    ∃ c, sGet? st.UUID_TO_CONFIG u = some c ∧ p.1 ∈ c.tags

/-- Every stored record is listed under its service name and under each of
its tags. -/
def RecordIndexed (st : RegistryState) : Prop :=
  ∀ q ∈ st.UUID_TO_CONFIG,
    (∃ l, sGet? st.SERVICE_TO_UUID q.2.service = some l ∧ q.1 ∈ l) ∧
    (∀ t ∈ q.2.tags, ∃ l, sGet? st.TAG_TO_UUID t = some l ∧ q.1 ∈ l)

/-- The mutual consistency of the three indices (invariant I1 in both
directions, for names and for tags). -/
def Consistent (st : RegistryState) : Prop :=
  NameConsistent st ∧ TagConsistent st ∧ RecordIndexed st

/-- Full internal well-formedness: distinct keys per map, the `uuid` field
of every stored record equals its key, and the three indices are mutually
consistent. -/
def WF (st : RegistryState) : Prop :=
  KeysNodup st.UUID_TO_CONFIG ∧ KeysNodup st.SERVICE_TO_UUID ∧
  KeysNodup st.TAG_TO_UUID ∧
  (∀ q ∈ st.UUID_TO_CONFIG, q.2.uuid = q.1) ∧ Consistent st

/-- Registry states reachable from the empty globals by any sequence of
the four mutating operations.  Register carries the freshness of the
generated uuid (`uuid.v4()` is collision-free per the spec). -/
inductive Reachable : RegistryState → Prop where
  | empty : Reachable emptyRegistry
  | registered (st : RegistryState) (ls : ListenerState)
      (body : RegisterBody) (u : String) (now : Int) :
      Reachable st → sHas st.UUID_TO_CONFIG u = false →
      Reachable (registerService st ls body u now).1
  | deregistered (st : RegistryState) (ls : ListenerState) (u : String) :
      Reachable st → Reachable (deleteService st ls u).1
  | ticked (st : RegistryState) (ls : ListenerState) (now : Int) :
      Reachable st → Reachable (updateAndReap st ls now).1
  | heartbeaten (st : RegistryState) (u : String) (now : Int) :
      Reachable st → Reachable (heartbeatService st u now).1

theorem wf_empty : WF emptyRegistry := by
  refine ⟨List.nodup_nil, List.nodup_nil, List.nodup_nil, ?_, ?_, ?_, ?_⟩
  · intro q hq
    simp [emptyRegistry] at hq
  · intro p hp
    simp [emptyRegistry] at hp
  · intro p hp
    simp [emptyRegistry] at hp
  · intro q hq
    simp [emptyRegistry] at hq

/-- Inserting a fresh record the way the register route does preserves
well-formedness. -/
theorem wf_insert (st : RegistryState) (cfg : Config) (u : String)
    (hwf : WF st) (hfresh : sHas st.UUID_TO_CONFIG u = false)
    (huuid : cfg.uuid = u) :
    WF { SERVICE_TO_UUID := pushIdx st.SERVICE_TO_UUID cfg.service u,
         TAG_TO_UUID := cfg.tags.foldl (fun m tag => pushIdx m tag u)
           st.TAG_TO_UUID,
         UUID_TO_CONFIG := sSet st.UUID_TO_CONFIG u cfg } := by
  obtain ⟨hnd1, hnd2, hnd3, hids, hname, htag, hrec⟩ := hwf
  have hufresh : sGet? st.UUID_TO_CONFIG u = none :=
    sGet?_eq_none_of_sHas_false hfresh
  have hnew : ∀ w c, sGet? st.UUID_TO_CONFIG w = some c →
      sGet? (sSet st.UUID_TO_CONFIG u cfg) w = some c := by
    intro w c hc
    have hwu : w ≠ u := by
      intro he
      rw [he, hufresh] at hc
      exact Option.noConfusion hc
    rw [sGet?_sSet_ne _ _ _ _ hwu]
    exact hc
  refine ⟨keysNodup_sSet _ _ hnd1, keysNodup_sSet _ _ hnd2,
    keysNodup_foldPush _ _ hnd3, ?_, ?_, ?_, ?_⟩
  · -- uuid field matches the key
    intro q hq
    rcases mem_sSet_weak hq with h | h
    · rw [h]
      exact huuid
    · exact hids q h
  · -- NameConsistent
    intro p hp w hw
    rcases mem_sSet_weak hp with h | h
    · have hp1 : p.1 = cfg.service := by rw [h]
      have hw2 : w ∈ sGetD st.SERVICE_TO_UUID cfg.service [] ++ [u] := by
        rw [h] at hw
        exact hw
      rcases List.mem_append.mp hw2 with h3 | h3
      · cases hg : sGet? st.SERVICE_TO_UUID cfg.service with
        | none =>
          rw [sGetD, hg] at h3
          simp at h3
        | some l =>
          rw [sGetD, hg] at h3
          rcases hname (cfg.service, l) (mem_of_sGet? hg) w h3 with
            ⟨c, hc, hcs⟩
          exact ⟨c, hnew w c hc, by rw [hp1]; exact hcs⟩
      · simp at h3
        subst h3
        refine ⟨cfg, ?_, by rw [hp1]⟩
        exact sGet?_sSet_self _ _ _
    · rcases hname p h w hw with ⟨c, hc, hcs⟩
      exact ⟨c, hnew w c hc, hcs⟩
  · -- TagConsistent
    intro p hp w hw
    rcases foldPush_mem cfg.tags st.TAG_TO_UUID u hp w hw with h | h
    · rcases h with ⟨p', hp', hk, hw'⟩
      rcases htag p' hp' w hw' with ⟨c, hc, hcs⟩
      exact ⟨c, hnew w c hc, by rw [← hk]; exact hcs⟩
    · rcases h with ⟨hw1, hp1⟩
      subst hw1
      exact ⟨cfg, sGet?_sSet_self _ _ _, hp1⟩
  · -- RecordIndexed
    intro q hq
    rcases mem_sSet_weak hq with h | h
    · constructor
      · rw [h]
        refine ⟨sGetD st.SERVICE_TO_UUID cfg.service [] ++ [u],
          sGet?_pushIdx_self _ _ _, by simp⟩
      · intro t ht
        have ht' : t ∈ cfg.tags := by
          rw [h] at ht
          exact ht
        rcases foldPush_self cfg.tags st.TAG_TO_UUID u t ht' with
          ⟨l, hl, hul⟩
        refine ⟨l, hl, ?_⟩
        rw [h]
        exact hul
    · rcases hrec q h with ⟨⟨l, hA, hql⟩, htags⟩
      constructor
      · by_cases hs : q.2.service = cfg.service
        · rw [hs]
          refine ⟨sGetD st.SERVICE_TO_UUID cfg.service [] ++ [u],
            sGet?_pushIdx_self _ _ _, ?_⟩
          rw [sGetD, ← hs, hA]
          simp [hql]
        · refine ⟨l, ?_, hql⟩
          rw [sGet?_pushIdx_ne _ _ _ _ hs]
          exact hA
      · intro t ht
        rcases htags t ht with ⟨l', hT, hm⟩
        exact foldPush_preserve cfg.tags st.TAG_TO_UUID u t q.1
          ⟨l', hT, hm⟩

/-- The register route preserves well-formedness when the generated uuid
is fresh. -/
theorem wf_registerService (st : RegistryState) (ls : ListenerState)
    (body : RegisterBody) (u : String) (now : Int)
    (hwf : WF st) (hfresh : sHas st.UUID_TO_CONFIG u = false) :
    WF (registerService st ls body u now).1 := by
  cases htags : body.tags with
  | nonArray =>
    simp only [registerService, htags]
    exact hwf
  | arr tags =>
    simp only [registerService, htags]
    exact wf_insert st
      { service := body.service, endpoint := body.endpoint, tags := tags,
        created := now, lastHeartbeat := now, age := 0, heartbeat := 0,
        ttl := parseTtl body.ttl, uuid := u } u hwf hfresh rfl

/-- `reapService` preserves well-formedness. -/
theorem wf_reapService (st : RegistryState) (u : String) (hwf : WF st) :
    WF (reapService st u).1 := by
  obtain ⟨hnd1, hnd2, hnd3, hids, hname, htag, hrec⟩ := hwf
  cases hg : sGet? st.UUID_TO_CONFIG u with
  | none =>
    simp only [reapService, hg]
    exact ⟨hnd1, hnd2, hnd3, hids, hname, htag, hrec⟩
  | some cfg =>
    simp only [reapService, hg]
    have hdel : ∀ w c, w ≠ u → sGet? st.UUID_TO_CONFIG w = some c →
        sGet? (sDel st.UUID_TO_CONFIG u) w = some c := by
      intro w c hwu hc
      rw [sGet?_sDel_ne _ _ _ hwu]
      exact hc
    refine ⟨keysNodup_sDel _ hnd1, keysNodup_sSet _ _ hnd2,
      keysNodup_foldRemove _ _ hnd3, ?_, ?_, ?_, ?_⟩
    · intro q hq
      exact hids q (mem_sDel hq).1
    · -- NameConsistent
      intro p hp w hw
      rcases mem_sSet_nodup hnd2 hp with h | h
      · have hp1 : p.1 = cfg.service := by rw [h]
        have hw2 : w ∈ without (sGetD st.SERVICE_TO_UUID cfg.service []) u :=
          by rw [h] at hw; exact hw
        have hwm := mem_without.mp hw2
        cases hg2 : sGet? st.SERVICE_TO_UUID cfg.service with
        | none =>
          rw [sGetD, hg2] at hwm
          simp at hwm
        | some l =>
          rw [sGetD, hg2] at hwm
          rcases hname (cfg.service, l) (mem_of_sGet? hg2) w hwm.1 with
            ⟨c, hc, hcs⟩
          exact ⟨c, hdel w c hwm.2 hc, by rw [hp1]; exact hcs⟩
      · rcases hname p h.1 w hw with ⟨c, hc, hcs⟩
        have hwu : w ≠ u := by
          intro he
          subst he
          rw [hg] at hc
          cases hc
          exact h.2 (by rw [← hcs])
        exact ⟨c, hdel w c hwu hc, hcs⟩
    · -- TagConsistent
      intro p hp w hw
      rcases foldRemove_mem cfg.tags u hnd3 hp w hw with
        ⟨p', hp', hk, hw', hcond⟩
      rcases htag p' hp' w hw' with ⟨c, hc, hcs⟩
      have hwu : w ≠ u := by
        intro he
        subst he
        rw [hg] at hc
        cases hc
        exact hcond (by rw [← hk]; exact hcs) rfl
      exact ⟨c, hdel w c hwu hc, by rw [← hk]; exact hcs⟩
    · -- RecordIndexed
      intro q hq
      have hq' := mem_sDel hq
      rcases hrec q hq'.1 with ⟨⟨l, hA, hql⟩, htags⟩
      constructor
      · by_cases hs : q.2.service = cfg.service
        · rw [hs]
          refine ⟨without (sGetD st.SERVICE_TO_UUID cfg.service []) u,
            sGet?_removeIdx_self _ _ _, ?_⟩
          rw [sGetD, ← hs, hA]
          exact mem_without.mpr ⟨hql, hq'.2⟩
        · refine ⟨l, ?_, hql⟩
          rw [sGet?_removeIdx_ne _ _ _ _ hs]
          exact hA
      · intro t ht
        rcases htags t ht with ⟨l', hT, hm⟩
        rw [foldRemove_sGet?]
        by_cases h2 : t ∈ cfg.tags
        · rw [if_pos h2, sGetD, hT]
          exact ⟨without l' u, rfl, mem_without.mpr ⟨hm, hq'.2⟩⟩
        · rw [if_neg h2]
          exact ⟨l', hT, hm⟩

/-- The heartbeat route preserves well-formedness. -/
theorem wf_heartbeatService (st : RegistryState) (u : String) (now : Int)
    (hwf : WF st) : WF (heartbeatService st u now).1 := by
  obtain ⟨hnd1, hnd2, hnd3, hids, hname, htag, hrec⟩ := hwf
  cases hg : sGet? st.UUID_TO_CONFIG u with
  | none =>
    simp only [heartbeatService, hg]
    exact ⟨hnd1, hnd2, hnd3, hids, hname, htag, hrec⟩
  | some cfg =>
    simp only [heartbeatService, hg]
    have hucfg : cfg.uuid = u := hids (u, cfg) (mem_of_sGet? hg)
    have htrans : ∀ w c, sGet? st.UUID_TO_CONFIG w = some c →
        ∃ c', sGet? (sSet st.UUID_TO_CONFIG u
            { cfg with lastHeartbeat := now }) w = some c' ∧
          c'.service = c.service ∧ c'.tags = c.tags := by
      intro w c hc
      by_cases hwu : w = u
      · subst hwu
        rw [hg] at hc
        cases hc
        refine ⟨{ cfg with lastHeartbeat := now }, sGet?_sSet_self _ _ _,
          rfl, rfl⟩
      · exact ⟨c, by rw [sGet?_sSet_ne _ _ _ _ hwu]; exact hc, rfl, rfl⟩
    refine ⟨keysNodup_sSet _ _ hnd1, hnd2, hnd3, ?_, ?_, ?_, ?_⟩
    · intro q hq
      rcases mem_sSet_weak hq with h | h
      · rw [h]
        exact hucfg
      · exact hids q h
    · intro p hp w hw
      rcases hname p hp w hw with ⟨c, hc, hcs⟩
      rcases htrans w c hc with ⟨c', hc', hcs', _⟩
      exact ⟨c', hc', by rw [hcs']; exact hcs⟩
    · intro p hp w hw
      rcases htag p hp w hw with ⟨c, hc, hcs⟩
      rcases htrans w c hc with ⟨c', hc', _, hct'⟩
      exact ⟨c', hc', by rw [hct']; exact hcs⟩
    · intro q hq
      rcases mem_sSet_weak hq with h | h
      · rcases hrec (u, cfg) (mem_of_sGet? hg) with ⟨⟨l, hA, hql⟩, htags⟩
        rw [h]
        constructor
        · exact ⟨l, hA, hql⟩
        · exact htags
      · exact hrec q h

/-- `updateServices` preserves well-formedness (it rewrites only the
stored `age` and `heartbeat` fields). -/
theorem wf_updateServices (st : RegistryState) (now : Int) (hwf : WF st) :
    WF (updateServices st now) := by
  obtain ⟨hnd1, hnd2, hnd3, hids, hname, htag, hrec⟩ := hwf
  have htrans : ∀ w c, sGet? st.UUID_TO_CONFIG w = some c →
      sGet? (sMapVals st.UUID_TO_CONFIG (refreshConfig now)) w =
        some (refreshConfig now c) := by
    intro w c hc
    rw [sGet?_sMapVals, hc]
    rfl
  refine ⟨keysNodup_sMapVals _ hnd1, hnd2, hnd3, ?_, ?_, ?_, ?_⟩
  · intro q hq
    rcases mem_sMapVals hq with ⟨v, hv, hq2⟩
    rw [hq2]
    exact hids (q.1, v) hv
  · intro p hp w hw
    rcases hname p hp w hw with ⟨c, hc, hcs⟩
    exact ⟨refreshConfig now c, htrans w c hc, hcs⟩
  · intro p hp w hw
    rcases htag p hp w hw with ⟨c, hc, hcs⟩
    exact ⟨refreshConfig now c, htrans w c hc, hcs⟩
  · intro q hq
    rcases mem_sMapVals hq with ⟨v, hv, hq2⟩
    rcases hrec (q.1, v) hv with ⟨⟨l, hA, hql⟩, htags⟩
    constructor
    · rw [hq2]
      exact ⟨l, hA, hql⟩
    · intro t ht
      rw [hq2] at ht
      exact htags t ht

/-- The state component of the reap sweep is the plain fold of
`reapService` over the selected uuids. -/
theorem reapFold_fst (uuids : List String) (st : RegistryState)
    (acc : List Config) :
    (uuids.foldl reapStep (st, acc)).1 =
      uuids.foldl (fun s r => (reapService s r).1) st := by
  induction uuids generalizing st acc with
  | nil => rfl
  | cons r rest ih => exact ih _ _

/-- The state after `reapServices` is `reapService` folded over the
selection. -/
theorem reapServices_fst (st : RegistryState) (ls : ListenerState) :
    (reapServices st ls).1 =
      (reapSelection st).foldl (fun s r => (reapService s r).1) st := by
  simp only [reapServices]
  exact reapFold_fst _ _ _

theorem wf_foldReap (uuids : List String) (st : RegistryState)
    (hwf : WF st) :
    WF (uuids.foldl (fun s r => (reapService s r).1) st) := by
  induction uuids generalizing st with
  | nil => exact hwf
  | cons r rest ih => exact ih _ (wf_reapService st r hwf)

/-- The delete route preserves well-formedness. -/
theorem wf_deleteService (st : RegistryState) (ls : ListenerState)
    (u : String) (hwf : WF st) : WF (deleteService st ls u).1 := by
  by_cases h : sHas st.UUID_TO_CONFIG u
  · simp only [deleteService, h, if_true]
    exact wf_reapService st u hwf
  · simp only [deleteService, h]
    simp only [Bool.false_eq_true, if_false]
    exact hwf

/-- A reaper tick preserves well-formedness. -/
theorem wf_updateAndReap (st : RegistryState) (ls : ListenerState)
    (now : Int) (hwf : WF st) : WF (updateAndReap st ls now).1 := by
  show WF (reapServices (updateServices st now) ls).1
  rw [reapServices_fst]
  exact wf_foldReap _ _ (wf_updateServices st now hwf)

/-- Every reachable registry state is well-formed. -/
theorem reachable_wf (st : RegistryState) (h : Reachable st) : WF st := by
  induction h with
  | empty => exact wf_empty
  | registered st ls body u now _ hfresh ih =>
    exact wf_registerService st ls body u now ih hfresh
  | deregistered st ls u _ ih => exact wf_deleteService st ls u ih
  | ticked st ls now _ ih => exact wf_updateAndReap st ls now ih
  | heartbeaten st u now _ ih => exact wf_heartbeatService st u now ih

theorem updateServices_sGet? (st : RegistryState) (now : Int) (u : String) :
    sGet? (updateServices st now).UUID_TO_CONFIG u =
      (sGet? st.UUID_TO_CONFIG u).map (refreshConfig now) :=
  sGet?_sMapVals _ _ _

/-- A uuid is selected for reaping exactly when its stored record's
`heartbeat` field strictly exceeds its `ttl`. -/
theorem mem_reapSelection_iff (st : RegistryState) (u : String)
    (cfg : Config) (hnd : KeysNodup st.UUID_TO_CONFIG)
    (hids : ∀ q ∈ st.UUID_TO_CONFIG, q.2.uuid = q.1)
    (h : sGet? st.UUID_TO_CONFIG u = some cfg) :
    u ∈ reapSelection st ↔ (cfg.ttl : ℚ) < cfg.heartbeat := by
  constructor
  · intro hmem
    rcases List.mem_map.mp hmem with ⟨c, hcf, hcu⟩
    have hcfilter := List.mem_filter.mp hcf
    rcases mem_sVals.mp hcfilter.1 with ⟨k, hk⟩
    have hku : k = u := by
      rw [← hcu]
      exact (hids (k, c) hk).symm
    subst hku
    have hc : sGet? st.UUID_TO_CONFIG k = some c := sGet?_of_mem_nodup hnd hk
    rw [h] at hc
    cases hc
    exact of_decide_eq_true hcfilter.2
  · intro hlt
    apply List.mem_map.mpr
    refine ⟨cfg, List.mem_filter.mpr ⟨mem_sVals.mpr ⟨u, mem_of_sGet? h⟩,
      decide_eq_true hlt⟩, hids (u, cfg) (mem_of_sGet? h)⟩

theorem reapService_byId_self (st : RegistryState) (u : String) :
    sGet? (reapService st u).1.UUID_TO_CONFIG u = none := by
  cases hg : sGet? st.UUID_TO_CONFIG u with
  | none =>
    simp only [reapService, hg]
  | some cfg =>
    simp only [reapService, hg]
    exact sGet?_sDel_self _ _

theorem reapService_byId_other (st : RegistryState) (u v : String)
    (h : v ≠ u) :
    sGet? (reapService st u).1.UUID_TO_CONFIG v =
      sGet? st.UUID_TO_CONFIG v := by
  cases hg : sGet? st.UUID_TO_CONFIG u with
  | none => simp only [reapService, hg]
  | some cfg =>
    simp only [reapService, hg]
    exact sGet?_sDel_ne _ _ _ h

theorem foldReap_byId_none (uuids : List String) (st : RegistryState)
    (u : String) (h : sGet? st.UUID_TO_CONFIG u = none) :
    sGet? ((uuids.foldl (fun s r => (reapService s r).1)
      st)).UUID_TO_CONFIG u = none := by
  induction uuids generalizing st with
  | nil => exact h
  | cons r rest ih =>
    apply ih
    by_cases hru : u = r
    · subst hru
      exact reapService_byId_self _ _
    · rw [reapService_byId_other _ _ _ hru]
      exact h

theorem foldReap_byId_mem (uuids : List String) (st : RegistryState)
    (u : String) (h : u ∈ uuids) :
    sGet? ((uuids.foldl (fun s r => (reapService s r).1)
      st)).UUID_TO_CONFIG u = none := by
  induction uuids generalizing st with
  | nil => simp at h
  | cons r rest ih =>
    by_cases hru : u = r
    · subst hru
      show sGet? ((rest.foldl (fun s r => (reapService s r).1)
        ((reapService st u).1))).UUID_TO_CONFIG u = none
      exact foldReap_byId_none rest _ u (reapService_byId_self st u)
    · rcases List.mem_cons.mp h with h1 | h1
      · exact absurd h1 hru
      · exact ih ((reapService st r).1) h1

theorem foldReap_byId_not_mem (uuids : List String) (st : RegistryState)
    (u : String) (h : u ∉ uuids) :
    sGet? ((uuids.foldl (fun s r => (reapService s r).1)
      st)).UUID_TO_CONFIG u = sGet? st.UUID_TO_CONFIG u := by
  induction uuids generalizing st with
  | nil => rfl
  | cons r rest ih =>
    have hru : u ≠ r := by
      intro he
      exact h (he ▸ List.mem_cons_self _ _)
    have hrest : u ∉ rest := fun hh => h (List.mem_cons_of_mem _ hh)
    show sGet? ((rest.foldl (fun s r => (reapService s r).1)
      ((reapService st r).1))).UUID_TO_CONFIG u = _
    rw [ih ((reapService st r).1) hrest]
    exact reapService_byId_other st r u hru

/-! ### Concrete fixtures for witnesses and counterexamples -/

/-- Empty listener globals. -/
def demoListeners : ListenerState :=
  { LISTENERS_BY_TAG := [], LISTENERS_BY_NAME := [], LISTENERS_ALL := [] }

/-- Listener globals with a single tag listener for "ip" and nothing
else. -/
def tagOnlyListeners : ListenerState :=
  { LISTENERS_BY_TAG := [("ip", ["http://listener/hook"])],
    LISTENERS_BY_NAME := [], LISTENERS_ALL := [] }

/-- A well-formed register request: service "dns", tag "ip", ttl 5. -/
def demoBody : RegisterBody :=
  { service := "dns", endpoint := "http://h:8000",
    tags := TagsField.arr ["ip"], ttl := some 5 }

/-- A second register request: service "dns", tag "ip", ttl 6. -/
def demoBody2 : RegisterBody :=
  { service := "dns", endpoint := "http://h:8000",
    tags := TagsField.arr ["ip"], ttl := some 6 }

/-- The registry after registering `demoBody` as "u1" at time 0. -/
def demoState : RegistryState :=
  (registerService emptyRegistry demoListeners demoBody "u1" 0).1

/-- The registry after additionally registering `demoBody2` as "u2" at
time 0. -/
def demoState2 : RegistryState :=
  (registerService demoState demoListeners demoBody2 "u2" 0).1

/-- The record stored for "u1" in `demoState`. -/
def demoConfig : Config :=
  { service := "dns", endpoint := "http://h:8000", tags := ["ip"],
    created := 0, lastHeartbeat := 0, age := 0, heartbeat := 0,
    ttl := 5, uuid := "u1" }

/-- The record stored for "u2" in `demoState2`. -/
def demoConfig2 : Config :=
  { service := "dns", endpoint := "http://h:8000", tags := ["ip"],
    created := 0, lastHeartbeat := 0, age := 0, heartbeat := 0,
    ttl := 6, uuid := "u2" }


/-- The reap threshold in seconds, restated over integer milliseconds. -/
theorem ttl_threshold_iff (ttl lh now : Int) :
    ((ttl : ℚ) < ((now : ℚ) - (lh : ℚ)) / 1000) ↔ 1000 * ttl < now - lh := by
  rw [lt_div_iff₀ (by norm_num : (0:ℚ) < 1000)]
  constructor
  · intro h
    have h2 : ((1000 * ttl : Int) : ℚ) < ((now - lh : Int) : ℚ) := by
      push_cast
      linarith
    exact_mod_cast h2
  · intro h
    have h2 : ((1000 * ttl : Int) : ℚ) < ((now - lh : Int) : ℚ) := by
      exact_mod_cast h
    push_cast at h2
    linarith

/-! ### Claim theorems -/

/-- C2: after every completed sequence of register and deregister
(including reaper-triggered) operations, the three indices are mutually
consistent: every id in a `byName` entry is a key of `byId` whose record
carries that service name, every id in a `byTag` entry is a key of `byId`
whose record carries that tag, and conversely every record in `byId` is
listed under its name and each of its tags. -/
theorem registry_indices_mutually_consistent (st : RegistryState)
    (h : Reachable st) : Consistent st :=
  (reachable_wf st h).2.2.2.2

/-- Witness for C2 at a concrete reachable state. -/
theorem registry_indices_mutually_consistent_witness :
    Reachable demoState ∧ Consistent demoState := by
  have hr : Reachable demoState :=
    Reachable.registered emptyRegistry demoListeners demoBody "u1" 0
      Reachable.empty rfl
  exact ⟨hr, registry_indices_mutually_consistent demoState hr⟩

/-- C5 counterexample: a register call supplying the negative ttl `-3`
stores `-3`, not the configured default, because `-3` is truthy in
`parseInt(ttl) || DEFAULT_SERVICE_TTL`. -/
theorem negative_ttl_not_defaulted :
    (sGet? (registerService emptyRegistry demoListeners
        { service := "dns", endpoint := "http://h:8000",
          tags := TagsField.arr [], ttl := some (-3) } "u1"
        0).1.UUID_TO_CONFIG "u1").map Config.ttl = some (-3)
    ∧ (-3 : Int) ≠ DEFAULT_SERVICE_TTL := by
  constructor
  · decide
  · decide

/-- C5 (amended): the stored ttl is `parseInt(ttl) || DEFAULT_SERVICE_TTL`:
the supplied value whenever it parses to a nonzero integer — including a
negative one — and the default exactly when the field is absent,
unparsable, or zero. -/
theorem register_ttl_policy (st : RegistryState) (ls : ListenerState)
    (body : RegisterBody) (u : String) (now : Int) (tags : List String)
    (htags : body.tags = TagsField.arr tags) :
    (sGet? (registerService st ls body u now).1.UUID_TO_CONFIG u).map
        Config.ttl = some (parseTtl body.ttl)
    ∧ (∀ n : Int, 0 < n → parseTtl (some n) = n)
    ∧ parseTtl none = DEFAULT_SERVICE_TTL
    ∧ parseTtl (some 0) = DEFAULT_SERVICE_TTL
    ∧ (∀ n : Int, n < 0 → parseTtl (some n) = n) := by
  refine ⟨?_, ?_, rfl, rfl, ?_⟩
  · simp only [registerService, htags]
    rw [sGet?_sSet_self]
    rfl
  · intro n hn
    simp [parseTtl, hn.ne']
  · intro n hn
    simp [parseTtl, hn.ne]

/-- Witness for C5 at a concrete register call. -/
theorem register_ttl_policy_witness :
    demoBody.tags = TagsField.arr ["ip"]
    ∧ (sGet? (registerService emptyRegistry demoListeners demoBody "u1"
        0).1.UUID_TO_CONFIG "u1").map Config.ttl = some (parseTtl demoBody.ttl) := by
  have h := register_ttl_policy emptyRegistry demoListeners demoBody "u1" 0
    ["ip"] rfl
  exact ⟨rfl, h.1⟩

/-- C10: when the register body's `tags` is not an array, the handler
throws at `configBlob.tags.join(",")` before touching any index, so the
whole registry state is unchanged and no uuid is returned. -/
theorem register_nonarray_tags_no_mutation (st : RegistryState)
    (ls : ListenerState) (body : RegisterBody) (u : String) (now : Int)
    (h : body.tags = TagsField.nonArray) :
    registerService st ls body u now = (st, none) := by
  simp only [registerService, h]

/-- Witness for C10 at a concrete malformed register call. -/
theorem register_nonarray_tags_no_mutation_witness :
    ({ service := "dns", endpoint := "http://h:8000",
        tags := TagsField.nonArray, ttl := some 5 } : RegisterBody).tags =
      TagsField.nonArray
    ∧ registerService demoState demoListeners
        { service := "dns", endpoint := "http://h:8000",
          tags := TagsField.nonArray, ttl := some 5 } "u2" 7 =
      (demoState, none) :=
  ⟨rfl, register_nonarray_tags_no_mutation demoState demoListeners
    { service := "dns", endpoint := "http://h:8000",
      tags := TagsField.nonArray, ttl := some 5 } "u2" 7 rfl⟩

/-- C1 (code bug): `notifyForService` reads the global `LISTENERS_BY_NAME`
instead of the group it is passed, so a subscriber present only in
`LISTENERS_BY_TAG["ip"]` receives zero delivery attempts when a record
tagged "ip" is registered — the claim requires exactly one, to
`http://listener/hook/ip`. -/
theorem tag_listeners_never_notified :
    sGetD tagOnlyListeners.LISTENERS_BY_TAG "ip" [] =
      ["http://listener/hook"]
    ∧ notifyByObject tagOnlyListeners demoConfig = []
    ∧ (registerService emptyRegistry tagOnlyListeners demoBody "u1" 0).2 =
      some ("u1", []) := by
  refine ⟨by decide, by decide, by decide⟩

/-- C3 (code bug): on a registered uuid the lookup route binds the record
but never calls `res.json`, so it produces no response; only the unknown
uuid branch answers. -/
theorem uuid_lookup_sends_no_response :
    sHas demoState.UUID_TO_CONFIG "u1" = true
    ∧ getServiceByUuid demoState "u1" = none
    ∧ getServiceByUuid demoState "u9" =
      some UuidLookupResult.noSuchService := by
  refine ⟨by decide, by decide, by decide⟩

/-- C4 (code bug): the `/service/all` handler body is empty, so no
snapshot is ever produced, whatever the registry state. -/
theorem snapshot_route_unimplemented (st : RegistryState) :
    getServiceAll st = none := rfl

/-- C6: on a reaper tick, a live record is selected iff its heartbeat age
at reap time strictly exceeds its ttl (equality survives); the sweep is
the fold of `reapService` — the same removal path the delete route uses —
over the selection, removing exactly the selected records. -/
theorem reaper_tick_expiry (st : RegistryState) (ls : ListenerState)
    (now : Int) (u : String) (cfg : Config) (hwf : WF st)
    (h : sGet? st.UUID_TO_CONFIG u = some cfg) :
    (u ∈ reapSelection (updateServices st now) ↔
      (cfg.ttl : ℚ) < ((now : ℚ) - (cfg.lastHeartbeat : ℚ)) / 1000)
    ∧ (u ∈ reapSelection (updateServices st now) ↔
      1000 * cfg.ttl < now - cfg.lastHeartbeat)
    ∧ (updateAndReap st ls now).1 =
        (reapSelection (updateServices st now)).foldl
          (fun s r => (reapService s r).1) (updateServices st now)
    ∧ (u ∈ reapSelection (updateServices st now) →
        sGet? (updateAndReap st ls now).1.UUID_TO_CONFIG u = none)
    ∧ (u ∉ reapSelection (updateServices st now) →
        sGet? (updateAndReap st ls now).1.UUID_TO_CONFIG u =
          some (refreshConfig now cfg))
    ∧ (sHas st.UUID_TO_CONFIG u = true →
        (deleteService st ls u).1 = (reapService st u).1) := by
  have hwf' := wf_updateServices st now hwf
  obtain ⟨hnd1', _, _, hids', _⟩ := hwf'
  have h' : sGet? (updateServices st now).UUID_TO_CONFIG u =
      some (refreshConfig now cfg) := by
    rw [updateServices_sGet?, h]
    rfl
  have hiffq : u ∈ reapSelection (updateServices st now) ↔
      (cfg.ttl : ℚ) < ((now : ℚ) - (cfg.lastHeartbeat : ℚ)) / 1000 :=
    mem_reapSelection_iff (updateServices st now) u (refreshConfig now cfg)
      hnd1' hids' h'
  refine ⟨hiffq, hiffq.trans (ttl_threshold_iff _ _ _), ?_, ?_, ?_, ?_⟩
  · show (reapServices (updateServices st now) ls).1 = _
    exact reapServices_fst _ _
  · intro hmem
    show sGet? (reapServices (updateServices st now)
      ls).1.UUID_TO_CONFIG u = none
    rw [reapServices_fst]
    exact foldReap_byId_mem _ _ _ hmem
  · intro hmem
    show sGet? (reapServices (updateServices st now)
      ls).1.UUID_TO_CONFIG u = _
    rw [reapServices_fst, foldReap_byId_not_mem _ _ _ hmem]
    exact h'
  · intro hhas
    simp only [deleteService, hhas, if_true]

/-- Witness for C6: two records registered at time 0 (ttl 5 and ttl 6);
at the tick at 6000 ms the heartbeat age is 6 s, so the ttl-5 record is
reaped and the ttl-6 record (exactly at its ttl) survives. -/
theorem reaper_tick_expiry_witness :
    sGet? demoState2.UUID_TO_CONFIG "u1" = some demoConfig
    ∧ sGet? demoState2.UUID_TO_CONFIG "u2" = some demoConfig2
    ∧ "u1" ∈ reapSelection (updateServices demoState2 6000)
    ∧ sGet? (updateAndReap demoState2 demoListeners
        6000).1.UUID_TO_CONFIG "u1" = none
    ∧ "u2" ∉ reapSelection (updateServices demoState2 6000)
    ∧ sGet? (updateAndReap demoState2 demoListeners
        6000).1.UUID_TO_CONFIG "u2" = some (refreshConfig 6000 demoConfig2)
    := by
  have hwf1 : WF demoState :=
    wf_registerService emptyRegistry demoListeners demoBody "u1" 0
      wf_empty rfl
  have hwf2 : WF demoState2 :=
    wf_registerService demoState demoListeners demoBody2 "u2" 0
      hwf1 (by decide)
  have h1 := reaper_tick_expiry demoState2 demoListeners 6000 "u1"
    demoConfig hwf2 (by decide)
  have h2 := reaper_tick_expiry demoState2 demoListeners 6000 "u2"
    demoConfig2 hwf2 (by decide)
  have hm1 : "u1" ∈ reapSelection (updateServices demoState2 6000) :=
    h1.2.1.mpr (by decide)
  have hm2 : "u2" ∉ reapSelection (updateServices demoState2 6000) := by
    intro hmem
    exact absurd (h2.2.1.mp hmem) (by decide)
  exact ⟨by decide, by decide, hm1, h1.2.2.2.1 hm1, hm2,
    h2.2.2.2.2.1 hm2⟩

/-- C7 counterexample: right after registration the stored `heartbeat`
field is `0` and is not recomputed on read; a read at t = 5000 ms still
sees `0`, while `now - lastHeartbeatAt` is 5 seconds at that moment. -/
theorem stored_heartbeat_stale_between_ticks :
    (sGet? demoState.UUID_TO_CONFIG "u1").map Config.heartbeat = some 0
    ∧ (0 : ℚ) ≠ ((5000 : ℚ) - ((0 : Int) : ℚ)) / 1000 := by
  constructor
  · decide
  · norm_num

/-- C7 (amended): `age` and `heartbeat` are stored fields, initialized to
`0` at registration and recomputed — as `(now - created)/1000` and
`(now - lastHeartbeat)/1000` seconds — only when `updateServices` runs at
the start of a reaper tick; reads in between return the stored values. -/
theorem ages_stored_refreshed_only_on_tick (st : RegistryState)
    (now : Int) (u : String) (cfg : Config)
    (h : sGet? st.UUID_TO_CONFIG u = some cfg) :
    sGet? (updateServices st now).UUID_TO_CONFIG u =
      some (refreshConfig now cfg)
    ∧ (refreshConfig now cfg).heartbeat =
      ((now : ℚ) - (cfg.lastHeartbeat : ℚ)) / 1000
    ∧ (refreshConfig now cfg).age = ((now : ℚ) - (cfg.created : ℚ)) / 1000
    ∧ (refreshConfig now cfg).lastHeartbeat = cfg.lastHeartbeat
    ∧ (refreshConfig now cfg).created = cfg.created := by
  refine ⟨?_, rfl, rfl, rfl, rfl⟩
  rw [updateServices_sGet?, h]
  rfl

/-- Witness for C7's amended statement at a concrete tick. -/
theorem ages_stored_refreshed_only_on_tick_witness :
    sGet? demoState.UUID_TO_CONFIG "u1" = some demoConfig
    ∧ sGet? (updateServices demoState 5000).UUID_TO_CONFIG "u1" =
      some (refreshConfig 5000 demoConfig) :=
  ⟨by decide, (ages_stored_refreshed_only_on_tick demoState 5000 "u1"
    demoConfig (by decide)).1⟩

/-- `reapService` on a registered uuid removes it from every index entry
(thanks to consistency it can occur nowhere else) and retains every index
key. -/
theorem reapService_removes_everywhere (st : RegistryState) (u : String)
    (cfg : Config) (hwf : WF st)
    (h : sGet? st.UUID_TO_CONFIG u = some cfg) :
    (∀ p ∈ (reapService st u).1.SERVICE_TO_UUID, u ∉ p.2)
    ∧ (∀ p ∈ (reapService st u).1.TAG_TO_UUID, u ∉ p.2)
    ∧ (∀ n, sHas st.SERVICE_TO_UUID n = true →
        sHas (reapService st u).1.SERVICE_TO_UUID n = true)
    ∧ (∀ t, sHas st.TAG_TO_UUID t = true →
        sHas (reapService st u).1.TAG_TO_UUID t = true) := by
  obtain ⟨hnd1, hnd2, hnd3, hids, hname, htag, hrec⟩ := hwf
  simp only [reapService, h]
  refine ⟨?_, ?_, ?_, ?_⟩
  · intro p hp hu
    rcases mem_sSet_nodup hnd2 hp with h2 | h2
    · have hu2 : u ∈ without (sGetD st.SERVICE_TO_UUID cfg.service []) u :=
        by rw [h2] at hu; exact hu
      exact (mem_without.mp hu2).2 rfl
    · rcases hname p h2.1 u hu with ⟨c, hc, hcs⟩
      rw [h] at hc
      cases hc
      exact h2.2 (by rw [← hcs])
  · intro p hp hu
    rcases foldRemove_mem cfg.tags u hnd3 hp u hu with
      ⟨p', hp', hk, hw', hcond⟩
    rcases htag p' hp' u hw' with ⟨c, hc, hcs⟩
    rw [h] at hc
    cases hc
    exact hcond (by rw [← hk]; exact hcs) rfl
  · intro n hn
    exact sHas_sSet_mono _ _ hn
  · intro t ht
    exact foldRemove_sHas _ _ _ ht

/-- C8 counterexample: deregistering the only "dns"/"ip" record leaves
`byName["dns"]` and `byTag["ip"]` present, mapping to empty lists — the
keys are not deleted as the claim requires. -/
theorem emptied_index_entry_key_retained :
    sGet? (deleteService demoState demoListeners
        "u1").1.SERVICE_TO_UUID "dns" = some []
    ∧ sHas (deleteService demoState demoListeners
        "u1").1.SERVICE_TO_UUID "dns" = true
    ∧ sGet? (deleteService demoState demoListeners
        "u1").1.TAG_TO_UUID "ip" = some [] := by
  refine ⟨by decide, by decide, by decide⟩

/-- C8 (amended): every successful deregister (explicit or reap) removes
the id from the `byName` entry of its name and from every `byTag` entry
of its tags — the id then appears in no index entry — but an entry
emptied by the removal keeps its key, mapping to an empty list; index
keys are never deleted. -/
theorem deregister_removes_id_keeps_keys (st : RegistryState)
    (ls : ListenerState) (u : String) (cfg : Config) (hwf : WF st)
    (h : sGet? st.UUID_TO_CONFIG u = some cfg) :
    (∀ p ∈ (deleteService st ls u).1.SERVICE_TO_UUID, u ∉ p.2)
    ∧ (∀ p ∈ (deleteService st ls u).1.TAG_TO_UUID, u ∉ p.2)
    ∧ sGet? (deleteService st ls u).1.UUID_TO_CONFIG u = none
    ∧ (∀ n, sHas st.SERVICE_TO_UUID n = true →
        sHas (deleteService st ls u).1.SERVICE_TO_UUID n = true)
    ∧ (∀ t, sHas st.TAG_TO_UUID t = true →
        sHas (deleteService st ls u).1.TAG_TO_UUID t = true) := by
  have hhas : sHas st.UUID_TO_CONFIG u = true := by
    rw [sHas_eq_isSome, h]
    rfl
  have hdel : (deleteService st ls u).1 = (reapService st u).1 := by
    simp only [deleteService, hhas, if_true]
  rcases reapService_removes_everywhere st u cfg hwf h with ⟨h1, h2, h3, h4⟩
  rw [hdel]
  exact ⟨h1, h2, reapService_byId_self st u, h3, h4⟩

/-- Witness for C8's amended statement on a concrete deregistration. -/
theorem deregister_removes_id_keeps_keys_witness :
    sGet? demoState.UUID_TO_CONFIG "u1" = some demoConfig
    ∧ sGet? (deleteService demoState demoListeners
        "u1").1.UUID_TO_CONFIG "u1" = none
    ∧ sHas (deleteService demoState demoListeners
        "u1").1.SERVICE_TO_UUID "dns" = true
    ∧ sHas (deleteService demoState demoListeners
        "u1").1.TAG_TO_UUID "ip" = true := by
  have hwf1 : WF demoState :=
    wf_registerService emptyRegistry demoListeners demoBody "u1" 0
      wf_empty rfl
  have hres := deregister_removes_id_keeps_keys demoState demoListeners
    "u1" demoConfig hwf1 (by decide)
  exact ⟨by decide, hres.2.2.1, hres.2.2.2.1 "dns" (by decide),
    hres.2.2.2.2 "ip" (by decide)⟩

/-- C9: heartbeat on a registered id sets only that record's
`lastHeartbeat` to the current time, leaves both indices and every other
record untouched, and performs no delivery; on an unknown id it answers
NotFound and mutates nothing. -/
theorem heartbeat_updates_only_lastHeartbeat (st : RegistryState)
    (u : String) (now : Int) :
    (∀ cfg, sGet? st.UUID_TO_CONFIG u = some cfg →
      (heartbeatService st u now).1.SERVICE_TO_UUID = st.SERVICE_TO_UUID
      ∧ (heartbeatService st u now).1.TAG_TO_UUID = st.TAG_TO_UUID
      ∧ sGet? (heartbeatService st u now).1.UUID_TO_CONFIG u =
        some { cfg with lastHeartbeat := now }
      ∧ (∀ v, v ≠ u →
          sGet? (heartbeatService st u now).1.UUID_TO_CONFIG v =
            sGet? st.UUID_TO_CONFIG v)
      ∧ (heartbeatService st u now).2 = (true, []))
    ∧ (sGet? st.UUID_TO_CONFIG u = none →
      heartbeatService st u now = (st, false, [])) := by
  constructor
  · intro cfg hg
    have e1 : (heartbeatService st u now).1.SERVICE_TO_UUID =
        st.SERVICE_TO_UUID := by
      simp only [heartbeatService, hg]
    have e2 : (heartbeatService st u now).1.TAG_TO_UUID =
        st.TAG_TO_UUID := by
      simp only [heartbeatService, hg]
    have e3 : (heartbeatService st u now).1.UUID_TO_CONFIG =
        sSet st.UUID_TO_CONFIG u { cfg with lastHeartbeat := now } := by
      simp only [heartbeatService, hg]
    have e4 : (heartbeatService st u now).2 = (true, []) := by
      simp only [heartbeatService, hg]
    refine ⟨e1, e2, ?_, ?_, e4⟩
    · rw [e3]
      exact sGet?_sSet_self _ _ _
    · intro v hv
      rw [e3]
      exact sGet?_sSet_ne _ _ _ _ hv
  · intro hg
    simp only [heartbeatService, hg]

/-- Witness for C9 on a concrete two-record registry. -/
theorem heartbeat_updates_only_lastHeartbeat_witness :
    sGet? demoState2.UUID_TO_CONFIG "u1" = some demoConfig
    ∧ (heartbeatService demoState2 "u1" 4000).1.SERVICE_TO_UUID =
      demoState2.SERVICE_TO_UUID
    ∧ (heartbeatService demoState2 "u1" 4000).1.TAG_TO_UUID =
      demoState2.TAG_TO_UUID
    ∧ sGet? (heartbeatService demoState2 "u1"
        4000).1.UUID_TO_CONFIG "u1" =
      some { demoConfig with lastHeartbeat := 4000 }
    ∧ sGet? (heartbeatService demoState2 "u1"
        4000).1.UUID_TO_CONFIG "u2" = sGet? demoState2.UUID_TO_CONFIG "u2"
    ∧ (heartbeatService demoState2 "u1" 4000).2 = (true, [])
    ∧ heartbeatService demoState2 "u9" 4000 = (demoState2, false, []) := by
  have h1 := (heartbeat_updates_only_lastHeartbeat demoState2 "u1"
    4000).1 demoConfig (by decide)
  have h9 := (heartbeat_updates_only_lastHeartbeat demoState2 "u9"
    4000).2 (by decide)
  exact ⟨by decide, h1.1, h1.2.1, h1.2.2.1, h1.2.2.2.1 "u2" (by decide),
    h1.2.2.2.2, h9⟩
